import Mathlib

/-!
# Verification of the go-asn1 TLV / BER codecs

This file contains a shallow embedding of the core data model and operations of
the `codello.dev/asn1` repository (TLV streaming decoder/encoder, the VLQ
codec, and parts of the BER value codecs), together with theorems settling the
frozen claims about the repository.

Conventions of the embedding:
* Go `int` / `int64` values are modelled as `Int`, with explicit wrap-around
  (`wrap64`) where Go arithmetic can overflow, and explicit conversion
  (`toUint64`) where Go converts to `uint`.
* Bytes are modelled as `Nat` (values < 256 in all reachable states).
* Byte streams are modelled as lists.  A reader that can produce transient
  errors (as exercised by the repository's own `testDataReader`) is modelled
  as a list of `BrItem`s: either a byte or a transient error.
* Go fixed-size arrays (`peekBuf`) are modelled as lists of their full size;
  `List.set` mirrors an in-bounds array store.
* The decoder is modelled for an underlying reader that implements
  `io.ByteReader` (so the internal `bufferedReader` is bypassed, exactly as in
  `Decoder.Reset`); the encoder for an underlying writer that implements
  `io.ByteWriter` and accepts every write (`bufferedWriter` is bypassed and
  its `Flush`/`Flushable` are no-ops on the empty buffer).
-/

deriving instance DecidableEq for Except

namespace Asn1

/-- Go's `math.MaxInt` on a 64-bit platform. -/
def maxInt : Int := 2 ^ 63 - 1

/-- Go's `math.MaxInt >> 8`, the guard used when accumulating length octets. -/
def maxIntShr8 : Int := 2 ^ 55 - 1

/-- Two's-complement wrap-around of 64-bit signed Go arithmetic. -/
def wrap64 (x : Int) : Int := (x + 2 ^ 63) % 2 ^ 64 - 2 ^ 63

/-- The numeric value of Go's `uint64(x)` (for `x` an `int`), in `[0, 2^64)`.
Used to model Go's `uint(...)` comparisons. -/
def toUint64 (x : Int) : Int := x % 2 ^ 64

/-- The numeric value of Go's `int64(n)` for `n` a `uint64` value in `[0, 2^64)`. -/
def ofUint64 (n : Int) : Int := if n < 2 ^ 63 then n else n - 2 ^ 64

/-- Whether an `Except` result is a success. -/
def exceptOk {α β : Type} : Except α β → Bool
  | .ok _ => true
  | .error _ => false

/-- Fuelled worker for `bitLen`. -/
def bitLenAux : Nat → Nat → Nat
  | 0, _ => 0
  | fuel + 1, n => if n = 0 then 0 else bitLenAux fuel (n / 2) + 1

/-- The bit length of a natural number (`bits.Len` in Go); equal to
`Nat.size` but structurally recursive, so concrete values reduce. -/
def bitLen (n : Nat) : Nat := bitLenAux n n

/-- Number of bytes of the base-128 (VLQ) encoding of `n`
(`vlq.Length` / `base128IntLength` in the source). -/
def base128Len (n : Nat) : Nat := if n = 0 then 1 else (bitLen n + 6) / 7

/-- The bytes of the minimal base-128 (VLQ) encoding of `n`, most significant
group first, continuation bit `0x80` on all but the last byte
(`vlq.Write` / `writeBase128Int` in the source). -/
def base128Bytes (n : Nat) : List Nat :=
  (List.range (base128Len n)).map fun j =>
    let k := base128Len n - 1 - j
    ((n >>> (7 * k)) &&& 0x7f) ||| (if k ≠ 0 then 0x80 else 0)

namespace Tlv

/-- `tlv.LengthIndefinite`. -/
def LengthIndefinite : Int := -1

/-- `tlv.Header`.  `tag` is `asn1.Tag`, a 16-bit integer whose top two bits
hold the class. -/
structure Header where
  tag : Nat
  constructed : Bool
  length : Int
deriving DecidableEq, Repr

/-- `tlv.EndOfContents` (the zero `Header`). -/
def EndOfContents : Header := ⟨0, false, 0⟩

/-- `tlv.MinLength`: indefinite-aware minimum of two lengths via Go's
`max(int(min(uint(l1), uint(l2))), LengthIndefinite)`. -/
def MinLength (l1 l2 : Int) : Int :=
  max (ofUint64 (min (toUint64 l1) (toUint64 l2))) LengthIndefinite

/-- Accumulator loop of `tlv.CombinedLength`; Go `int` arithmetic wraps. -/
def combinedLengthAux : Int → List Int → Int
  | sum, [] => sum
  | sum, l :: ls =>
    if l = LengthIndefinite then LengthIndefinite
    else if l > wrap64 (maxInt - sum) then LengthIndefinite
    else combinedLengthAux (wrap64 (sum + l)) ls

/-- `tlv.CombinedLength`. -/
def CombinedLength (ls : List Int) : Int := combinedLengthAux 0 ls

/-- Modelled from the spec: `tlv.HeaderSize` is used by `Encoder.writeHeader`
but its definition is not among the provided sources (only its tests and its
caller are).  Per the spec's header grammar: one identifier byte, a minimal
VLQ for tag numbers ≥ 31, one length byte, and for definite lengths ≥ 128 one
big-endian base-256 byte per 8 bits of the length. -/
def HeaderSize (h : Header) : Int :=
  (1 + (if 31 ≤ h.tag &&& 0x3FFF then base128Len (h.tag &&& 0x3FFF) else 0)
    + 1 + (if 128 ≤ h.length then (bitLen h.length.toNat + 7) / 8 else 0) : Nat)

/-- `tlv.stateEntry`: `header` is the embedded `Header`, `length` the
effective (possibly parent-restricted) length. -/
structure StateEntry where
  header : Header
  start : Int
  offset : Int
  length : Int
deriving DecidableEq, Repr

/-- `stateEntry.Remaining`. -/
def StateEntry.Remaining (e : StateEntry) : Int := max (e.length - e.offset) LengthIndefinite

/-- `tlv.state`: the stack of open enclosures (top entry held in `curr`),
plus the global byte offset. -/
structure StateS where
  stack : List StateEntry
  curr : StateEntry
  offset : Int
deriving DecidableEq, Repr

/-- `state.reset`: a single virtual root entry (constructed, indefinite). -/
def StateS.reset : StateS :=
  { stack := []
    curr := { header := ⟨0, true, LengthIndefinite⟩, start := 0, offset := 0,
              length := LengthIndefinite }
    offset := 0 }

/-- `state.root`. -/
def StateS.root (s : StateS) : Prop := s.stack = []

instance (s : StateS) : Decidable s.root := by
  unfold StateS.root; infer_instance

/-- `state.push`. -/
def StateS.push (s : StateS) (h : Header) (size : Int) : StateS :=
  let c := { s.curr with offset := s.curr.offset + size }
  { stack := s.stack ++ [c]
    curr := { header := h, start := s.offset, offset := 0,
              length := MinLength h.length c.Remaining }
    offset := s.offset + size }

/-- `state.pop`.  (Go panics when the stack is empty; the default entry below
is never reached from states where `pop` is invoked by the codecs.) -/
def StateS.pop (s : StateS) (size : Int) : StateS :=
  let off := s.curr.offset + size
  let c := s.stack.getLastD ⟨⟨0, false, 0⟩, 0, 0, 0⟩
  { stack := s.stack.dropLast
    curr := { c with offset := c.offset + off }
    offset := s.offset + size }

/-- Inner error values that can arise while decoding or encoding a TLV header
(the `errors.New` values of the `tlv` package, plus `io.ErrUnexpectedEOF`). -/
inductive SynMsg where
  | unexpectedEOC
  | invalidEOC
  | truncated
  | indefinitePrimitive
  | exceedsParent
  | tagTooLarge
  | lengthTooLarge
  | vlqNotMinimal
  | vlqOverflow
  | unexpectedEOF
  | unwrittenData
  | fuelExhausted
deriving DecidableEq, Repr

/-- Errors produced while reading raw header bytes: `io.EOF`, a wrapped
transient I/O error (`*ioError`), or one of the plain error values. -/
inductive RdErr where
  | eof
  | ioErr
  | msg (m : SynMsg)
deriving DecidableEq, Repr

/-- `tlv.noEOF`: turns `io.EOF` into `io.ErrUnexpectedEOF`. -/
def noEOF : RdErr → RdErr
  | .eof => .msg .unexpectedEOF
  | e => e

/-- An item produced by the decoder's underlying reader: a byte, or a
transient error (as produced by the repository's own `testDataReader`). -/
inductive BrItem where
  | byte (b : Nat)
  | terr
deriving DecidableEq, Repr

/-- Errors returned by `Decoder.ReadHeader` / `Decoder.PeekHeader`:
`io.EOF`, a wrapped transient error, a `*SyntaxError` (with its `ByteOffset`,
enclosing `Header` and inner error), or the invalid-state errors. -/
inductive DErr where
  | eof
  | ioErr
  | syn (byteOffset : Int) (header : Header) (inner : SynMsg)
  | invalidState
deriving DecidableEq, Repr

/-- `tlv.Decoder`.  `input` is the underlying byte stream, `peekBuf` the
14-byte replay buffer, and `valActive` models the `val` field: `some n` when a
primitive value reader with `n` remaining bytes has been handed out. -/
structure Decoder where
  st : StateS
  input : List BrItem
  peekBuf : List Nat
  peekAt : Int
  peekLen : Int
  peekBytes : Int
  valActive : Option Int
deriving DecidableEq, Repr

/-- `tlv.NewDecoder` on a fresh state reading the given stream. -/
def Decoder.mk0 (input : List BrItem) : Decoder :=
  { st := StateS.reset, input := input, peekBuf := List.replicate 14 0,
    peekAt := 0, peekLen := 0, peekBytes := 0, valActive := none }

/-- `Decoder.readByte`: replays from `peekBuf` while `peekAt < peekLen`,
otherwise reads from the underlying reader and records the byte in `peekBuf`. -/
def Decoder.readByte (d : Decoder) : Decoder × Except RdErr Nat :=
  if d.st.curr.Remaining = d.peekBytes then (d, .error (.msg .truncated))
  else if d.peekAt < d.peekLen then
    ({ d with peekAt := d.peekAt + 1 }, .ok (d.peekBuf.getD d.peekAt.toNat 0))
  else
    match d.input with
    | [] => (d, .error .eof)
    | .terr :: rest => ({ d with input := rest }, .error .ioErr)
    | .byte b :: rest =>
      ({ d with input := rest,
                peekBuf := d.peekBuf.set d.peekAt.toNat b,
                peekLen := d.peekLen + 1,
                peekBytes := d.peekBytes + 1,
                peekAt := d.peekAt + 1 }, .ok b)

/-- Modelled from the spec: `asn1.MaxTag` is referenced by
`Decoder.decodeHeader` but not defined in the provided sources.  The spec
bounds tag numbers by the word size of the tag type minus its two class bits;
the `tlv` sources use the 16-bit `asn1.Tag`, so the maximum number is
`2^14 - 1`. -/
def MaxTag : Nat := 2 ^ 14 - 1

/-- Continuation loop of `vlq.read` instantiated at `T = asn1.Tag` (16 bits),
reading through `Decoder.readByte`.  Following the Go code, `ret` wraps at 16
bits and `numBits` counts the meaningful bits accumulated so far. -/
def Decoder.vlqLoop : Nat → Decoder → Nat → Nat → Nat → Decoder × Except RdErr Nat
  | 0, d, _, _, _ => (d, .error (.msg .fuelExhausted))
  | fuel + 1, d, b, ret, numBits =>
    if b &&& 0x80 = 0 then (d, .ok ret)
    else
      match d.readByte with
      | (d', .error e) => (d', .error (noEOF e))
      | (d', .ok b') =>
        let ret' := (ret <<< 7 ||| (b' &&& 0x7f)) % 2 ^ 16
        let numBits' := if numBits = 0 then bitLen (b' &&& 0x7f) else numBits + 7
        if numBits' > 16 then (d', .error (.msg .vlqOverflow))
        else Decoder.vlqLoop fuel d' b' ret' numBits'

/-- `vlq.ReadMinimal[asn1.Tag]` reading through `Decoder.readByte`.  An error
on the very first read is passed through unchanged (`io.EOF` stays `io.EOF`).
The fuel is an upper bound on the number of readable bytes, so the
`fuelExhausted` branch of the loop is never reached. -/
def Decoder.readMinimal16 (d : Decoder) : Decoder × Except RdErr Nat :=
  match d.readByte with
  | (d', .error e) => (d', .error e)
  | (d', .ok b) =>
    if b = 0x80 then (d', .error (.msg .vlqNotMinimal))
    else Decoder.vlqLoop ((d'.peekLen - d'.peekAt).toNat + d'.input.length + 1)
      d' b (b &&& 0x7f) (bitLen (b &&& 0x7f))

/-- The long-form length loop of `Decoder.decodeHeader`: reads `n` length
octets, guards against overflow, and removes leading zero octets from the
replay buffer (`d.peekAt--; d.peekLen--`). -/
def Decoder.lenLoop : Nat → Decoder → Header → Decoder × Except RdErr Header
  | 0, d, h =>
    if h = (⟨0, false, 0⟩ : Header) then (d, .error (.msg .invalidEOC)) else (d, .ok h)
  | n + 1, d, h =>
    match d.readByte with
    | (d', .error e) => (d', .error (noEOF e))
    | (d', .ok b) =>
      if h.length > maxIntShr8 then (d', .error (.msg .lengthTooLarge))
      else
        let len' := h.length * 256 + b
        let d'' := if len' = 0 then { d' with peekAt := d'.peekAt - 1, peekLen := d'.peekLen - 1 }
                   else d'
        Decoder.lenLoop n d'' { h with length := len' }

/-- Length part of `Decoder.decodeHeader`: short form, indefinite form
(`0x80`), or long form via `Decoder.lenLoop`. -/
def Decoder.readLength (d : Decoder) (h : Header) : Decoder × Except RdErr Header :=
  match d.readByte with
  | (d', .error e) => (d', .error (noEOF e))
  | (d', .ok b) =>
    if b &&& 0x80 = 0 then (d', .ok { h with length := (b &&& 0x7f : Nat) })
    else if b = 0x80 then (d', .ok { h with length := LengthIndefinite })
    else Decoder.lenLoop (b &&& 0x7f) d' { h with length := 0 }

/-- `Decoder.decodeHeader`: identifier octet, optional long-form tag number,
then the length octets. -/
def Decoder.decodeHeader (d : Decoder) : Decoder × Except RdErr Header :=
  match d.readByte with
  | (d1, .error e) => (d1, .error e)
  | (d1, .ok b) =>
    let h : Header := ⟨((b >>> 6) <<< 14) ||| (b &&& 0x1f), b &&& 0x20 = 0x20, 0⟩
    if b &&& 0x1f = 0x1f then
      match d1.readMinimal16 with
      | (d2, .error e) => (d2, .error (noEOF e))
      | (d2, .ok n) =>
        let h := { h with tag := (h.tag &&& 0xC000) ||| (n &&& 0x3FFF) }
        if n > MaxTag then (d2, .error (.msg .tagTooLarge))
        else d2.readLength h
    else d1.readLength h

/-- `Decoder.readHeader`: synthetic end-of-contents for exhausted
definite-length enclosures, otherwise decode a header and validate it against
the enclosing state. -/
def Decoder.readHeaderAux (d : Decoder) : Decoder × Except RdErr Header :=
  if d.st.curr.header.length ≠ LengthIndefinite ∧ d.st.curr.Remaining = 0 then
    (d, .ok ⟨0, false, 0⟩)
  else
    match d.decodeHeader with
    | (d1, .error e) => (d1, .error (if d1.st.root then e else noEOF e))
    | (d1, .ok h) =>
      if h = (⟨0, false, 0⟩ : Header) ∧ ¬ d1.st.root ∧
          d1.st.curr.header.length = LengthIndefinite then
        (d1, .ok h)
      else if h = (⟨0, false, 0⟩ : Header) then (d1, .error (.msg .unexpectedEOC))
      else if h.tag = 0 then (d1, .error (.msg .invalidEOC))
      else if ¬ h.constructed ∧ h.length = LengthIndefinite then
        (d1, .error (.msg .indefinitePrimitive))
      else if h.length ≠ LengthIndefinite ∧
          toUint64 (d1.peekBytes + h.length) > toUint64 d1.st.curr.Remaining then
        (d1, .error (.msg .exceedsParent))
      else (d1, .ok h)

/-- `Decoder.PeekHeader`: rejects reads while a value reader is open, resets
the replay cursor, and wraps non-I/O errors into a `SyntaxError` carrying the
current offset and enclosing header. -/
def Decoder.PeekHeader (d : Decoder) : Decoder × Except DErr Header :=
  if d.valActive.isSome then (d, .error .invalidState)
  else
    match Decoder.readHeaderAux { d with peekAt := 0 } with
    | (d1, .ok h) => (d1, .ok h)
    | (d1, .error .eof) => (d1, .error .eof)
    | (d1, .error .ioErr) => (d1, .error .ioErr)
    | (d1, .error (.msg m)) =>
      (d1, .error (.syn (d1.st.offset + (if m = .unexpectedEOF then d1.peekBytes else 0))
        d1.st.curr.header m))

/-- `Decoder.ReadHeader`: peek, then commit (pop on end-of-contents, push
otherwise), clear the peek state, and hand out a value reader for primitive
headers (`some remaining`). -/
def Decoder.ReadHeader (d : Decoder) : Decoder × Except DErr (Header × Option Int) :=
  match d.PeekHeader with
  | (d1, .error e) => (d1, .error e)
  | (d1, .ok h) =>
    let st' := if h.tag = 0 then d1.st.pop d1.peekBytes else d1.st.push h d1.peekBytes
    let d2 := { d1 with st := st', peekLen := 0, peekBytes := 0 }
    if d2.st.curr.header.constructed ∨ h.tag = 0 then (d2, .ok (h, none))
    else
      let n := d2.st.curr.Remaining
      ({ d2 with valActive := some n }, .ok (h, some n))

/-- `Decoder.StackDepth`. -/
def Decoder.StackDepth (d : Decoder) : Nat := d.st.stack.length

/-- `Decoder.InputOffset`. -/
def Decoder.InputOffset (d : Decoder) : Int :=
  match d.valActive with
  | some n => d.st.offset + (d.st.curr.length - n) + d.peekBytes
  | none => d.st.offset

/-- Errors returned by `Encoder.WriteHeader`: a `*SyntaxError` or the
value-not-closed error.  (`*ioError` cannot arise here because the modelled
underlying writer accepts every byte.) -/
inductive WErr where
  | syn (byteOffset : Int) (header : Header) (inner : SynMsg)
  | valueNotClosed
deriving DecidableEq, Repr

/-- `tlv.Encoder`.  `output` is the byte stream accepted by the underlying
writer, `peekBuf` the 12-byte scratch buffer with `peekBuf[peekAt:peekLen]`
the still-unflushed bytes, and `valActive` models the `val` field. -/
structure Encoder where
  st : StateS
  output : List Nat
  peekHeader : Header
  peekBuf : List Nat
  peekAt : Int
  peekLen : Int
  valActive : Option Int
deriving DecidableEq, Repr

/-- `tlv.NewEncoder` on a fresh state. -/
def Encoder.mk0 : Encoder :=
  { st := StateS.reset, output := [], peekHeader := ⟨0, false, 0⟩,
    peekBuf := List.replicate 12 0, peekAt := 0, peekLen := 0, valActive := none }

/-- An encoder state in which a previous `WriteHeader ⟨4, false, 1⟩` flushed
only the first of its two header bytes `04 01` to the underlying writer: the
second byte is still pending in the scratch buffer (`peekAt = 1 < 2 =
peekLen`).  Go reaches such states when the underlying writer performs a
short write or returns a transient error during `flush`. -/
def retryEncoder : Encoder :=
  { st := StateS.reset, output := [0x04], peekHeader := ⟨4, false, 1⟩,
    peekBuf := [0x04, 0x01] ++ List.replicate 10 0, peekAt := 1, peekLen := 2,
    valActive := none }

/-- `Encoder.writeByte`: appends a byte to the scratch buffer unless the
current enclosure has no room left. -/
def Encoder.writeByteE (e : Encoder) (b : Nat) : Encoder × Except SynMsg Unit :=
  if e.peekLen = e.st.curr.Remaining then (e, .error .truncated)
  else ({ e with peekBuf := e.peekBuf.set e.peekLen.toNat b, peekLen := e.peekLen + 1 },
    .ok ())

/-- Write a list of bytes through `Encoder.writeByteE`, stopping at the first
error (used for the VLQ tag bytes and the long-form length bytes). -/
def Encoder.writeBytesE : Encoder → List Nat → Encoder × Except SynMsg Unit
  | e, [] => (e, .ok ())
  | e, b :: bs =>
    match e.writeByteE b with
    | (e', .error m) => (e', .error m)
    | (e', .ok ()) => e'.writeBytesE bs

/-- `Encoder.flush`: writes `peekBuf[peekAt:peekLen]` to the underlying
writer.  The modelled writer accepts all bytes, so `peekAt` advances to
`peekLen` and no error occurs. -/
def Encoder.flushE (e : Encoder) : Encoder :=
  if e.peekAt = e.peekLen then e
  else { e with output := e.output ++ ((e.peekBuf.take e.peekLen.toNat).drop e.peekAt.toNat),
                peekAt := e.peekLen }

/-- The big-endian length octets of the long-form length encoding in
`Encoder.encodeHeader` (`numBytes` down to 1 of `byte(h.Length >> 8*(k-1))`). -/
def lengthOctets (len : Int) : List Nat :=
  let nb := (bitLen len.toNat + 7) / 8
  (List.range nb).map fun j => (len.toNat >>> ((nb - 1 - j) * 8)) &&& 0xFF

/-- `Encoder.encodeHeader`: serialize `h` into the scratch buffer and flush
it.  If unflushed bytes remain from a previous call, only a call with the
identical header re-flushes them; any other header is rejected. -/
def Encoder.encodeHeaderE (e : Encoder) (h : Header) : Encoder × Except SynMsg Unit :=
  if e.peekLen > 0 then
    if h ≠ e.peekHeader then (e, .error .unwrittenData)
    else (e.flushE, .ok ())
  else
    let e := { e with peekHeader := h }
    let b := ((h.tag &&& 0xC000) >>> 8) ||| (if h.constructed then 0x20 else 0)
    let number := h.tag &&& 0x3FFF
    let idStep : Encoder × Except SynMsg Unit :=
      if number < 31 then e.writeByteE (b ||| number)
      else
        match e.writeByteE (b ||| 0x1f) with
        | (e', .error m) => (e', .error m)
        | (e', .ok ()) => e'.writeBytesE (base128Bytes number)
    match idStep with
    | (e', .error m) => (e', .error m)
    | (e', .ok ()) =>
      let lenStep : Encoder × Except SynMsg Unit :=
        if h.length = LengthIndefinite then e'.writeByteE 0x80
        else if 128 ≤ h.length then
          match e'.writeByteE (0x80 ||| ((bitLen h.length.toNat + 7) / 8)) with
          | (e'', .error m) => (e'', .error m)
          | (e'', .ok ()) => e''.writeBytesE (lengthOctets h.length)
        else e'.writeByteE h.length.toNat
      match lenStep with
      | (e'', .error m) => (e'', .error m)
      | (e'', .ok ()) => (e''.flushE, .ok ())

/-- `Encoder.writeHeader`: validation of `h` against the enclosing state,
then `encodeHeader`.  End-of-contents octets are emitted only when the
enclosure being closed uses the indefinite-length header. -/
def Encoder.writeHeaderE (e : Encoder) (h : Header) : Encoder × Except SynMsg Unit :=
  if h.tag = 0 then
    if h ≠ (⟨0, false, 0⟩ : Header) then (e, .error .invalidEOC)
    else if e.st.root ∨ ¬ e.st.curr.header.constructed then (e, .error .unexpectedEOC)
    else if e.st.curr.header.length ≠ LengthIndefinite ∧ e.st.curr.Remaining ≠ 0 then
      (e, .error .unexpectedEOC)
    else if e.st.curr.header.length = LengthIndefinite then e.encodeHeaderE h
    else (e, .ok ())
  else if ¬ h.constructed ∧ h.length = LengthIndefinite then
    (e, .error .indefinitePrimitive)
  else if h.length ≠ LengthIndefinite ∧
      toUint64 (HeaderSize h + h.length) > toUint64 e.st.curr.Remaining then
    (e, .error .exceedsParent)
  else e.encodeHeaderE h

/-- `Encoder.WriteHeader`: on success pops (end-of-contents) or pushes the
header, committing `peekAt` consumed bytes; on a non-I/O error resets the
scratch buffer and wraps the error in a `SyntaxError`. -/
def Encoder.WriteHeader (e : Encoder) (h : Header) : Encoder × Except WErr (Option Int) :=
  if e.valActive.isSome then (e, .error .valueNotClosed)
  else
    match e.writeHeaderE h with
    | (e1, .error m) =>
      ({ e1 with peekLen := 0, peekAt := 0 },
        .error (.syn e1.st.offset e1.st.curr.header m))
    | (e1, .ok ()) =>
      let st' := if h.tag = 0 then e1.st.pop e1.peekAt else e1.st.push h e1.peekAt
      let e2 := { e1 with st := st', peekLen := 0, peekAt := 0 }
      if h.constructed ∨ h.tag = 0 then (e2, .ok none)
      else ({ e2 with valActive := some e2.st.curr.Remaining },
        .ok (some e2.st.curr.Remaining))

end Tlv

namespace Vlq

/-- Errors of `vlq.read`: `io.EOF` (first read), `io.ErrUnexpectedEOF`,
`errNotMinimal`, `errOverflow`. -/
inductive VErr where
  | eofV
  | unexpEofV
  | notMinimal
  | overflow
deriving DecidableEq, Repr

/-- The continuation loop of `vlq.read` for a destination type of bit width
`W`: while the previous byte has its continuation bit set, shift in the next
7-bit group (wrapping at `W` bits like the Go register) and track the number
of meaningful bits accumulated; fail with `overflow` when that count exceeds
`W`. -/
def readLoop (W : Nat) : List Nat → Nat → Nat → Nat → Except VErr (Nat × List Nat)
  | [], b, ret, _ =>
    if b &&& 0x80 = 0 then .ok (ret, []) else .error .unexpEofV
  | b' :: rest, b, ret, numBits =>
    if b &&& 0x80 = 0 then .ok (ret, b' :: rest)
    else
      let ret' := (ret <<< 7 ||| (b' &&& 0x7f)) % 2 ^ W
      let numBits' := if numBits = 0 then bitLen (b' &&& 0x7f) else numBits + 7
      if numBits' > W then .error .overflow
      else readLoop W rest b' ret' numBits'

/-- `vlq.read` (with `ReadMinimal`'s minimality check when `minimal = true`):
returns the decoded value together with the unread remainder of the input. -/
def read (W : Nat) (minimal : Bool) : List Nat → Except VErr (Nat × List Nat)
  | [] => .error .eofV
  | b :: rest =>
    if b = 0x80 ∧ minimal then .error .notMinimal
    else readLoop W rest b (b &&& 0x7f) (bitLen (b &&& 0x7f))

/-- The byte sequence of a VLQ with the given 7-bit groups: every byte but the
last carries the continuation bit. -/
def encodeGroups : List Nat → List Nat
  | [] => []
  | [g] => [g]
  | g :: gs => (g ||| 0x80) :: encodeGroups gs

/-- The unsigned value denoted by a big-endian base-128 group sequence,
starting from an accumulator. -/
def groupsValFrom (v : Nat) (gs : List Nat) : Nat := gs.foldl (fun a g => a * 128 + g) v

/-- The unsigned value denoted by a big-endian base-128 group sequence. -/
def groupsVal (gs : List Nat) : Nat := groupsValFrom 0 gs

end Vlq

namespace Ber

/-- `asn1.Tag` of the BER layer: a (class, number) pair. -/
structure BTag where
  cls : Nat
  number : Nat
deriving DecidableEq, Repr

/-- The tag of the ASN.1 INTEGER type, `[UNIVERSAL 2]`. -/
def intTag : BTag := ⟨0, 2⟩

/-- Inner messages of the BER errors relevant here. -/
inductive BMsg where
  | emptyInteger
  | notMinimallyEncoded
  | integerSigned
  | integerTooLarge
deriving DecidableEq, Repr

/-- `ber.SyntaxError` / `ber.StructuralError` with the enclosing tag. -/
inductive BErr where
  | synB (tag : BTag) (m : BMsg)
  | structB (tag : BTag) (m : BMsg)
deriving DecidableEq, Repr

/-- The read loop of `intCodec.BerDecode`: reads while content remains and
`read < size`.  `val` is the Go `uint64` accumulator (wrapping at 64 bits);
`size` grows by one when an unsigned destination sees a leading `0x00 80..`
pattern.  Mirrors the Go condition
`read == 2 && (val&0xff80 == 0) || (val&0xff80 == 0xff80)` with Go operator
precedence (`&&` binds tighter than `||`). -/
def intDecodeLoop (signed : Bool) (tag : BTag) :
    List Nat → Nat → Nat → Nat → Except BErr (Nat × Nat)
  | [], _, read, val => .ok (read, val)
  | b :: rest, size, read, val =>
    if read < size then
      let read' := read + 1
      let val' := (val * 256 + b) % 2 ^ 64
      if (read' = 2 ∧ val' &&& 0xff80 = 0) ∨ (val' &&& 0xff80 = 0xff80) then
        .error (.synB tag .notMinimallyEncoded)
      else
        let size' := if read' = 2 ∧ val' &&& 0xff80 = 0x80 ∧ ¬ signed then size + 1
                     else size
        intDecodeLoop signed tag rest size' read' val'
    else .error (.structB tag .integerTooLarge)

/-- Sign extension of the low `8*read` bits of `v`
(Go: `i <<= 64 - read*8; i >>= 64 - read*8`). -/
def signExt (v : Nat) (read : Nat) : Int :=
  let x := v % 2 ^ (8 * read)
  if x < 2 ^ (8 * read - 1) then (x : Int) else (x : Int) - 2 ^ (8 * read)

/-- `intCodec.BerDecode` for a native integer destination of `size` bytes
(`signed` selects the signed kinds).  The destination's optional
`IsValid()` hook does not exist on plain integer types and is omitted. -/
def intCodecBerDecode (signed : Bool) (size : Nat) (tag : BTag) (content : List Nat) :
    Except BErr Int :=
  match content with
  | [] => .error (.synB tag .emptyInteger)
  | b :: rest =>
    if b &&& 0x80 ≠ 0 ∧ ¬ signed then .error (.structB tag .integerSigned)
    else
      match intDecodeLoop signed tag rest size 1 b with
      | .error e => .error e
      | .ok (read, val) =>
        if signed then .ok (signExt val read) else .ok (val : Int)

/-- The non-minimal encodings as defined by the claim (and spec): two leading
`0x00` with the next bit clear, or two leading `0xFF` with the next bit set. -/
def claimNonMinimal : List Nat → Bool
  | b0 :: b1 :: _ =>
    (b0 == 0 && decide (b1 < 0x80)) || (b0 == 0xFF && decide (0x80 ≤ b1))
  | _ => false

/-- The two's-complement value of a big-endian content octet string. -/
def tcValue (bs : List Nat) : Int :=
  signExt (bs.foldl (fun a b => (a * 256 + b) % 2 ^ 64) 0) bs.length

/-- `oidCodec.BerEncode`: validation of the arcs and the produced content
octets (first octet `40*arc0 + arc1`, remaining arcs as minimal VLQs). -/
def oidBerEncode (oid : List Nat) : Except Unit (List Nat) :=
  if oid.length < 2 ∨ 2 < oid.getD 0 0 ∨ (oid.getD 0 0 < 2 ∧ 40 < oid.getD 1 0) then
    .error ()
  else
    .ok (base128Bytes (40 * oid.getD 0 0 + oid.getD 1 0) ++
      (oid.drop 2).flatMap base128Bytes)

/-- Continuation loop of `decodeBase128`: accumulate 7-bit groups into a
`uint` register (wrapping at 64 bits); syntax problems (non-minimal leading
`0x80`, overflow past the `uint` width) are flagged and reported after the
loop, mirroring the Go control flow. -/
def decodeBase128Loop : List Nat → Nat → Nat → Nat → Bool → Except Unit (Nat × List Nat)
  | input, bPrev, ret, numBits, flagged =>
    if bPrev &&& 0x80 = 0 then
      if flagged then .error () else .ok (ret, input)
    else
      match input with
      | [] => .error ()
      | b :: rest =>
        let ret' := (ret <<< 7 ||| (b &&& 0x7f)) % 2 ^ 64
        let numBits' := if numBits = 0 then bitLen (b &&& 0x7f) else numBits + 7
        decodeBase128Loop rest b ret' numBits' (flagged || decide (numBits' > 64))

/-- `decodeBase128` over a byte list: value of the first VLQ plus the
remaining bytes (`io.EOF` on empty input is folded into the error case). -/
def decodeBase128L : List Nat → Except Unit (Nat × List Nat)
  | [] => .error ()
  | b :: rest =>
    decodeBase128Loop rest b (b &&& 0x7f) (bitLen (b &&& 0x7f)) (b == 0x80)

/-- Fuelled worker for `decodeRelativeOIDL`; every VLQ consumes at least one
byte, so fuel equal to the content length never runs out. -/
def decodeRelAux : Nat → List Nat → Except Unit (List Nat)
  | _, [] => .ok []
  | 0, _ :: _ => .error ()
  | fuel + 1, bs =>
    match decodeBase128L bs with
    | .error e => .error e
    | .ok (v, rest) =>
      match decodeRelAux fuel rest with
      | .ok vs => .ok (v :: vs)
      | .error e => .error e

/-- `decodeRelativeOID`: decode VLQs until the content is exhausted. -/
def decodeRelativeOIDL (bs : List Nat) : Except Unit (List Nat) :=
  decodeRelAux bs.length bs

/-- `oidCodec.BerDecode` restricted to its content handling: the first VLQ
`v` yields arcs `[v/40, v%40]` when `v < 80` and `[2, v-80]` otherwise; the
remaining VLQs are the remaining arcs. -/
def oidContentDecode (content : List Nat) : Except Unit (List Nat) :=
  match decodeBase128L content with
  | .error e => .error e
  | .ok (v, rest) =>
    match decodeRelativeOIDL rest with
    | .error e => .error e
    | .ok vs => .ok ((if v < 80 then [v / 40, v % 40] else [2, v - 80]) ++ vs)

/-- A parsed BER data value encoding: a primitive value with its content
octets, or a constructed value with its tagged children.  A `ber.Reader`
ranges over exactly this structure (for well-formed input). -/
inductive BElem where
  | prim (bs : List Nat)
  | cons (children : List (BTag × BElem))

/-- A `ber.Reader` positioned inside a data value encoding: the element it
reads and, for constructed elements, the index of the next child that
`Next()` returns. -/
structure RD where
  elem : BElem
  pos : Nat

/-- `Reader.Constructed`. -/
def RD.constructedB (r : RD) : Bool :=
  match r.elem with
  | .prim _ => false
  | .cons _ => true

/-- Errors visible through `StringReader.next`: `io.EOF`, the
"non-matching encoding ⟨tag⟩ in constructed string" `SyntaxError`, the
primitive-encoding error of `Reader.Next`, and fuel exhaustion (never reached
with sufficient fuel). -/
inductive SErr where
  | eofS
  | nonMatching (t : BTag)
  | primEnc
  | fuelS
deriving DecidableEq, Repr

/-- `Reader.Next`: the next child of a constructed encoding, `io.EOF` at its
end. -/
def RD.nextB (r : RD) : RD × Except SErr (BTag × RD) :=
  match r.elem with
  | .prim _ => (r, .error .primEnc)
  | .cons cs =>
    match cs.get? r.pos with
    | some (t, el) => ({ r with pos := r.pos + 1 }, .ok (t, ⟨el, 0⟩))
    | none => (r, .error .eofS)

/-- `ber.StringReader`: outer tag `t`, underlying reader `rd`, the nested
`StringReader` for the constructed child currently being flattened (`curr`),
and the current primitive leaf (`currLeaf`).  In the Go code the primitive
case sets `r.curr = r` (a self pointer used only for its non-nilness); the
model stores a copy. -/
inductive SR where
  | mk (t : BTag) (rd : RD) (curr : Option SR) (currLeaf : Option RD)

mutual

/-- `StringReader.next`: returns the next primitive leaf of the (possibly
nested) constructed string, or `io.EOF` when exhausted.  `fuel` bounds the
number of internal steps; it is never exhausted for fuel larger than the
number of nodes of the element. -/
def srNext : Nat → SR → SR × Except SErr RD
  | 0, s => (s, .error .fuelS)
  | Nat.succ fuel, SR.mk t rd curr _ =>
    match rd.elem with
    | .prim _ =>
      match curr with
      | none => (SR.mk t rd (some (SR.mk t rd none none)) (some rd), .ok rd)
      | some _ => (SR.mk t rd curr none, .error .eofS)
    | .cons _ => srLoop fuel t rd curr ⟨0, 0⟩

/-- The `for r.currLeaf == nil` loop of `StringReader.next`.  `h` is the loop
variable holding the tag of the last header read at this level; it starts as
the zero header's tag on every call.  The second half of the loop body
(pulling the next leaf from the nested reader `c`; on its `io.EOF` dropping
it and continuing; on success re-checking the — possibly stale — `h` against
the outer tag) appears inlined at both places the Go loop reaches it. -/
def srLoop : Nat → BTag → RD → Option SR → BTag → SR × Except SErr RD
  | 0, t, rd, curr, _ => (SR.mk t rd curr none, .error .fuelS)
  | Nat.succ fuel, t, rd, curr, h =>
    match curr with
    | none =>
      match rd.nextB with
      | (rd', .error e) => (SR.mk t rd' none none, .error e)
      | (rd', .ok (ht, child)) =>
        if ht ≠ t then (SR.mk t rd' none none, .error (.nonMatching ht))
        else if child.constructedB = false then (SR.mk t rd' none (some child), .ok child)
        else
          match srNext fuel (SR.mk ht child none none) with
          | (_, .error .eofS) => srLoop fuel t rd' none ht
          | (_, .error e) => (SR.mk t rd' none none, .error e)
          | (c', .ok leaf) =>
            if ht ≠ t then (SR.mk t rd' (some c') (some leaf), .error (.nonMatching ht))
            else (SR.mk t rd' (some c') (some leaf), .ok leaf)
    | some c =>
      match srNext fuel c with
      | (_, .error .eofS) => srLoop fuel t rd none h
      | (_, .error e) => (SR.mk t rd none none, .error e)
      | (c', .ok leaf) =>
        if h ≠ t then (SR.mk t rd (some c') (some leaf), .error (.nonMatching h))
        else (SR.mk t rd (some c') (some leaf), .ok leaf)

end

mutual

/-- Whether every tag in (the children of) an element equals `t`. -/
def allTags : BTag → BElem → Bool
  | _, .prim _ => true
  | t, .cons cs => allTagsList t cs

/-- List worker of `allTags`. -/
def allTagsList : BTag → List (BTag × BElem) → Bool
  | _, [] => true
  | t, (ht, el) :: cs => ht == t && allTags t el && allTagsList t cs

end

end Ber

/-! ## Helper lemmas -/

theorem wrap64_eq_self {x : Int} (h1 : -(2 : Int) ^ 63 ≤ x) (h2 : x < 2 ^ 63) :
    wrap64 x = x := by
  unfold wrap64
  rw [Int.emod_eq_of_lt (by omega) (by omega)]
  omega

theorem toUint64_eq_self {x : Int} (h1 : 0 ≤ x) (h2 : x < 2 ^ 64) : toUint64 x = x := by
  unfold toUint64
  exact Int.emod_eq_of_lt h1 h2

theorem size_succ_div2 {n : Nat} (h : n ≠ 0) : Nat.size n = Nat.size (n / 2) + 1 := by
  conv_lhs => rw [← Nat.bit_decomp n]
  rw [Nat.size_bit (by rwa [Nat.bit_decomp]), Nat.div2_val]

theorem bitLenAux_eq_size : ∀ (fuel n : Nat), n ≤ fuel → bitLenAux fuel n = Nat.size n := by
  intro fuel
  induction fuel with
  | zero =>
    intro n h
    obtain rfl : n = 0 := Nat.le_zero.mp h
    simp [bitLenAux]
  | succ fuel ih =>
    intro n h
    by_cases hn : n = 0
    · subst hn; simp [bitLenAux]
    · rw [show bitLenAux (fuel + 1) n = bitLenAux fuel (n / 2) + 1 from by
        simp [bitLenAux, hn]]
      rw [ih (n / 2) (by omega), ← size_succ_div2 hn]

theorem bitLen_eq_size (n : Nat) : bitLen n = Nat.size n := bitLenAux_eq_size n n le_rfl

namespace Tlv

theorem combinedLengthAux_of_mem_indef :
    ∀ (ls : List Int) (sum : Int), LengthIndefinite ∈ ls →
      combinedLengthAux sum ls = LengthIndefinite := by
  intro ls
  induction ls with
  | nil => intro sum h; simp at h
  | cons l ls ih =>
    intro sum h
    unfold combinedLengthAux
    by_cases hl : l = LengthIndefinite
    · simp [hl]
    · have hmem : LengthIndefinite ∈ ls := by
        rcases List.mem_cons.mp h with h' | h'
        · exact absurd h'.symm hl
        · exact h'
      by_cases hov : l > wrap64 (maxInt - sum)
      · simp [hl, hov]
      · simp [hl, hov, ih _ hmem]

theorem combinedLengthAux_of_nonneg :
    ∀ (ls : List Int) (sum : Int), 0 ≤ sum → sum ≤ maxInt → (∀ l ∈ ls, 0 ≤ l) →
      combinedLengthAux sum ls =
        if sum + ls.sum ≤ maxInt then sum + ls.sum else LengthIndefinite := by
  intro ls
  induction ls with
  | nil =>
    intro sum h0 h1 _
    simp [combinedLengthAux, h1]
  | cons l ls ih =>
    intro sum h0 h1 hls
    have hl : 0 ≤ l := hls l (List.mem_cons_self l ls)
    have hls' : ∀ x ∈ ls, 0 ≤ x := fun x hx => hls x (List.mem_cons_of_mem l hx)
    have hsum : 0 ≤ ls.sum := List.sum_nonneg hls'
    have hmaxInt : maxInt = 2 ^ 63 - 1 := rfl
    have hw : wrap64 (maxInt - sum) = maxInt - sum :=
      wrap64_eq_self (by omega) (by omega)
    unfold combinedLengthAux
    have hlne : ¬ l = LengthIndefinite := by
      unfold LengthIndefinite; omega
    by_cases hov : l > wrap64 (maxInt - sum)
    · rw [if_neg hlne, if_pos hov]
      rw [hw] at hov
      rw [List.sum_cons, if_neg (by omega)]
    · rw [if_neg hlne, if_neg hov]
      rw [hw] at hov
      have hw2 : wrap64 (sum + l) = sum + l := wrap64_eq_self (by omega) (by omega)
      rw [hw2, ih (sum + l) (by omega) (by omega) hls', List.sum_cons]
      ring_nf

end Tlv

namespace Vlq

theorem shiftLeft7_or {v g : Nat} (hg : g < 128) : v <<< 7 ||| g = v * 128 + g := by
  have h := Nat.mul_add_lt_is_or (show g < 2 ^ 7 by omega) v
  rw [Nat.shiftLeft_eq]
  calc v * 2 ^ 7 ||| g = 2 ^ 7 * v ||| g := by rw [Nat.mul_comm]
  _ = 2 ^ 7 * v + g := h.symm
  _ = v * 128 + g := by ring

theorem and127_of_lt {g : Nat} (hg : g < 128) : g &&& 0x7f = g := by
  have h : (0x7f : Nat) = 2 ^ 7 - 1 := by norm_num
  rw [h]
  exact Nat.and_pow_two_sub_one_of_lt_two_pow (by omega)

theorem and128_of_lt {g : Nat} (hg : g < 128) : g &&& 0x80 = 0 := by
  apply Nat.eq_of_testBit_eq
  intro i
  simp only [Nat.testBit_and, Nat.zero_testBit]
  rcases eq_or_ne i 7 with h | h
  · subst h
    rw [Nat.testBit_lt_two_pow (by omega)]
    simp
  · have h2 : (0x80 : Nat) = 2 ^ 7 := by norm_num
    rw [h2, Nat.testBit_two_pow_of_ne (Ne.symm h)]
    simp

theorem or128_eq_add {g : Nat} (hg : g < 128) : g ||| 0x80 = g + 128 := by
  have h := Nat.mul_add_lt_is_or (show g < 2 ^ 7 by omega) 1
  calc g ||| 0x80 = 0x80 ||| g := Nat.lor_comm g 0x80
  _ = 2 ^ 7 * 1 ||| g := by norm_num
  _ = 2 ^ 7 * 1 + g := h.symm
  _ = g + 128 := by omega

theorem or128_and127 {g : Nat} (hg : g < 128) : (g ||| 0x80) &&& 0x7f = g := by
  rw [Nat.and_distrib_right, and127_of_lt hg,
    show (0x80 &&& 0x7f : Nat) = 0 from rfl]
  simp

theorem or128_and128 {g : Nat} (hg : g < 128) : (g ||| 0x80) &&& 0x80 ≠ 0 := by
  rw [Nat.and_distrib_right, and128_of_lt hg,
    show (0x80 &&& 0x80 : Nat) = 0x80 from rfl]
  simp

theorem size_mul128_add {v g : Nat} (hg : g < 128) (hv : v ≠ 0) :
    Nat.size (v * 128 + g) = Nat.size v + 7 := by
  have hlt : v < 2 ^ Nat.size v := Nat.lt_size_self v
  have hge : 2 ^ (Nat.size v - 1) ≤ v := by
    have hpos : 0 < Nat.size v := Nat.size_pos.mpr (Nat.pos_of_ne_zero hv)
    exact Nat.lt_size.mp (by omega)
  have hpos : 0 < Nat.size v := Nat.size_pos.mpr (Nat.pos_of_ne_zero hv)
  have h1 : v * 128 + g < 2 ^ (Nat.size v + 7) := by
    have : 2 ^ (Nat.size v + 7) = 2 ^ Nat.size v * 128 := by
      rw [Nat.pow_add]
    omega
  have h2 : 2 ^ (Nat.size v + 6) ≤ v * 128 + g := by
    have he : Nat.size v + 6 = (Nat.size v - 1) + 7 := by omega
    have : 2 ^ (Nat.size v + 6) = 2 ^ (Nat.size v - 1) * 128 := by
      rw [he, Nat.pow_add]
    omega
  have hle : Nat.size (v * 128 + g) ≤ Nat.size v + 7 := Nat.size_le.mpr h1
  have hgt : Nat.size v + 6 < Nat.size (v * 128 + g) := Nat.lt_size.mpr h2
  omega

/-- The meaningful-bits counter of `vlq.read` tracks the bit length of the
accumulated value: one loop step turns `(v, bitLen v)` into
`(v*128+g, bitLen (v*128+g))`. -/
theorem numBits_step {v g : Nat} (hg : g < 128) :
    (if bitLen v = 0 then bitLen g else bitLen v + 7) = bitLen (v * 128 + g) := by
  simp only [bitLen_eq_size]
  by_cases hv : v = 0
  · subst hv; simp
  · rw [if_neg (by simpa [Nat.size_eq_zero] using hv), size_mul128_add hg hv]

theorem groupsValFrom_nil (v : Nat) : groupsValFrom v [] = v := rfl

theorem groupsValFrom_cons (v g : Nat) (gs : List Nat) :
    groupsValFrom v (g :: gs) = groupsValFrom (v * 128 + g) gs := rfl

theorem groupsValFrom_le {v : Nat} : ∀ gs : List Nat, v ≤ groupsValFrom v gs := by
  intro gs
  induction gs generalizing v with
  | nil => simp [groupsValFrom_nil]
  | cons g gs ih =>
    rw [groupsValFrom_cons]
    calc v ≤ v * 128 + g := by omega
    _ ≤ groupsValFrom (v * 128 + g) gs := ih

/-- Once the previous byte has its continuation bit clear, the loop stops
with the accumulated value. -/
theorem readLoop_done {W : Nat} {input : List Nat} {b ret numBits : Nat}
    (h : b &&& 0x80 = 0) : readLoop W input b ret numBits = .ok (ret, input) := by
  cases input <;> simp [readLoop, h]

/-- Main loop invariant for `vlq.read`: starting from an accumulated value
`v` (with `numBits = bitLen v` and `v < 2^W`) and a previous byte with the
continuation bit set, consuming the encoded remaining groups yields the full
value when it fits in `W` bits and the overflow error otherwise. -/
theorem readLoop_spec (W : Nat) :
    ∀ (gs rest : List Nat) (b v : Nat), gs ≠ [] → (∀ g ∈ gs, g < 128) →
      b &&& 0x80 ≠ 0 → v < 2 ^ W →
      readLoop W (encodeGroups gs ++ rest) b v (bitLen v) =
        if groupsValFrom v gs < 2 ^ W then .ok (groupsValFrom v gs, rest)
        else .error .overflow := by
  intro gs
  induction gs with
  | nil => intro rest b v hne; exact absurd rfl hne
  | cons g gs ih =>
    intro rest b v _ hlt hb hv
    have hg : g < 128 := hlt g (List.mem_cons_self g gs)
    have hx := em (v * 128 + g < 2 ^ W)
    cases gs with
    | nil =>
      simp only [encodeGroups, List.cons_append, List.nil_append]
      simp only [readLoop, if_neg hb, and127_of_lt hg, shiftLeft7_or hg, numBits_step hg]
      simp only [bitLen_eq_size]
      rcases hx with hx | hx
      · rw [if_neg (Nat.not_lt.mpr (Nat.size_le.mpr hx))]
        rw [Nat.mod_eq_of_lt hx, readLoop_done (and128_of_lt hg)]
        rw [groupsValFrom_cons, groupsValFrom_nil, if_pos hx]
      · have hnb : Nat.size (v * 128 + g) > W := by
          rcases Nat.lt_or_ge W (Nat.size (v * 128 + g)) with h | h
          · exact h
          · exact absurd (Nat.size_le.mp h) hx
        rw [if_pos hnb, groupsValFrom_cons, groupsValFrom_nil, if_neg hx]
    | cons g2 gs2 =>
      simp only [encodeGroups, List.cons_append]
      simp only [readLoop, if_neg hb, or128_and127 hg, shiftLeft7_or hg, numBits_step hg]
      simp only [bitLen_eq_size]
      rcases hx with hx | hx
      · rw [if_neg (Nat.not_lt.mpr (Nat.size_le.mpr hx))]
        rw [Nat.mod_eq_of_lt hx, groupsValFrom_cons]
        rw [← bitLen_eq_size]
        exact ih rest (g ||| 0x80) (v * 128 + g) (by simp)
          (fun x hxm => hlt x (List.mem_cons_of_mem g hxm)) (or128_and128 hg) hx
      · have hnb : Nat.size (v * 128 + g) > W := by
          rcases Nat.lt_or_ge W (Nat.size (v * 128 + g)) with h | h
          · exact h
          · exact absurd (Nat.size_le.mp h) hx
        rw [if_pos hnb, groupsValFrom_cons]
        have hge : 2 ^ W ≤ groupsValFrom (v * 128 + g) (g2 :: gs2) :=
          le_trans (by omega) (groupsValFrom_le (g2 :: gs2))
        rw [if_neg (by omega)]

end Vlq

namespace Tlv

/-! Reading header bytes never touches the decoder's committed state
(`stack`, `curr`, global `offset`): only `ReadHeader` commits. -/

theorem readByte_st (d : Decoder) : d.readByte.1.st = d.st := by
  unfold Decoder.readByte
  repeat' split
  all_goals rfl

theorem vlqLoop_st :
    ∀ (fuel : Nat) (d : Decoder) (b ret numBits : Nat),
      (Decoder.vlqLoop fuel d b ret numBits).1.st = d.st := by
  intro fuel
  induction fuel with
  | zero => intro d b ret numBits; rfl
  | succ fuel ih =>
    intro d b ret numBits
    unfold Decoder.vlqLoop
    split
    · rfl
    · have hst := readByte_st d
      split <;> rename_i d' x heq <;> rw [heq] at hst
      · exact hst
      · try dsimp only
        repeat' split
        all_goals first | exact hst | (rw [ih]; exact hst)

theorem readMinimal16_st (d : Decoder) : d.readMinimal16.1.st = d.st := by
  unfold Decoder.readMinimal16
  have hst := readByte_st d
  split <;> rename_i d' x heq <;> rw [heq] at hst
  · exact hst
  · try dsimp only
    repeat' split
    all_goals first | exact hst | (rw [vlqLoop_st]; exact hst)

theorem lenLoop_st :
    ∀ (n : Nat) (d : Decoder) (h : Header), (Decoder.lenLoop n d h).1.st = d.st := by
  intro n
  induction n with
  | zero =>
    intro d h
    unfold Decoder.lenLoop
    repeat' split
    all_goals rfl
  | succ n ih =>
    intro d h
    unfold Decoder.lenLoop
    have hst := readByte_st d
    split <;> rename_i d' x heq <;> rw [heq] at hst
    · exact hst
    · try dsimp only
      repeat' split
      all_goals first | exact hst | (rw [ih]; exact hst)

theorem readLength_st (d : Decoder) (h : Header) : (d.readLength h).1.st = d.st := by
  unfold Decoder.readLength
  have hst := readByte_st d
  split <;> rename_i d' x heq <;> rw [heq] at hst
  · exact hst
  · try dsimp only
    repeat' split
    all_goals first | exact hst | (rw [lenLoop_st]; exact hst)

theorem decodeHeader_st (d : Decoder) : d.decodeHeader.1.st = d.st := by
  unfold Decoder.decodeHeader
  have hst := readByte_st d
  split <;> rename_i d1 x heq <;> rw [heq] at hst
  · exact hst
  · split
    · have hst2 := readMinimal16_st d1
      split <;> rename_i d2 y heq2 <;> rw [heq2] at hst2
      · exact hst2.trans hst
      · try dsimp only
        repeat' split
        all_goals first | exact hst2.trans hst |
          (rw [readLength_st]; exact hst2.trans hst)
    · rw [readLength_st]; exact hst

/-- Structure-eta: resetting `peekAt` to `0` on a decoder whose `peekAt`
already is `0` is the identity. -/
theorem decoder_peekAt_eta (d : Decoder) (h : d.peekAt = 0) :
    { d with peekAt := 0 } = d := by
  cases d
  simp only at h
  simp [h]

/-- The first two bytes of a scratch buffer after storing `0` at indices `0`
and `1` (the end-of-contents octets written by `Encoder.encodeHeader`). -/
theorem take2_set01 {bs : List Nat} (h : 2 ≤ bs.length) :
    ((bs.set 0 0).set 1 0).take 2 = [0, 0] := by
  match bs, h with
  | b0 :: b1 :: rest, _ => simp [List.set]

end Tlv

/-! ## The claims -/

/-- Claim C10 (corrected).  `tlv.CombinedLength` returns `LengthIndefinite`
whenever some argument is `LengthIndefinite`, and on *non-negative* arguments
it returns their sum when that sum fits in an `int` and `LengthIndefinite`
otherwise.  (The claim as stated, over arbitrary `int` lengths, is refuted by
`claim_C10_counterexample`: a negative non-indefinite length makes the
overflow guard `sum > maxInt - l` wrap and misfire.) -/
theorem claim_C10 :
    (∀ ls : List Int, Tlv.LengthIndefinite ∈ ls →
      Tlv.CombinedLength ls = Tlv.LengthIndefinite) ∧
    (∀ ls : List Int, (∀ l ∈ ls, 0 ≤ l) →
      Tlv.CombinedLength ls =
        if ls.sum ≤ maxInt then ls.sum else Tlv.LengthIndefinite) := by
  constructor
  · intro ls hmem
    exact Tlv.combinedLengthAux_of_mem_indef ls 0 hmem
  · intro ls hnn
    have h := Tlv.combinedLengthAux_of_nonneg ls 0 le_rfl (by norm_num [maxInt]) hnn
    simpa using h

/-- Witness for C10: a list containing `LengthIndefinite` combines to
`LengthIndefinite`, and `[3, 4]` combines to `7`. -/
theorem claim_C10_witness :
    Tlv.CombinedLength [Tlv.LengthIndefinite, 5] = Tlv.LengthIndefinite ∧
    Tlv.CombinedLength [3, 4] = 7 := by
  constructor
  · exact claim_C10.1 [Tlv.LengthIndefinite, 5] (by decide)
  · rw [claim_C10.2 [3, 4] (by decide)]
    decide

/-- Counterexample for C10 as frozen: `[-5, 0]` contains no
`LengthIndefinite` and its running sum `-5` never exceeds `maxInt`, so the
claim predicts the sum `-5`; `tlv.CombinedLength` actually returns
`LengthIndefinite`, because Go evaluates `l > math.MaxInt - sum` with a
wrapped right-hand side once `sum` is negative. -/
theorem claim_C10_counterexample :
    Tlv.CombinedLength [-5, 0] = Tlv.LengthIndefinite ∧
    Tlv.LengthIndefinite ∉ ([-5, 0] : List Int) ∧
    ([-5, 0] : List Int).sum ≤ maxInt ∧
    ([-5, 0] : List Int).sum ≠ Tlv.LengthIndefinite := by
  refine ⟨by decide, by decide, ?_, by decide⟩
  norm_num [maxInt]

/-- Claim C7 (corrected).  `vlq.read` into a `W`-bit destination: the minimal
variant rejects a leading `0x80` byte with `errNotMinimal`; a well-formed
group sequence decodes to its base-128 value when that value fits in `W`
*bits*, and fails with `errOverflow` otherwise.  (The frozen claim bounds the
accumulator by `⌈W/7⌉` meaningful bits, which is refuted by
`claim_C7_counterexample`; the code bounds it by `W` bits, i.e. by the value
range of the destination.) -/
theorem claim_C7 (W : Nat) (hW : 7 ≤ W) :
    (∀ rest : List Nat, Vlq.read W true (0x80 :: rest) = .error .notMinimal) ∧
    (∀ (gs rest : List Nat) (minimal : Bool), gs ≠ [] → (∀ g ∈ gs, g < 128) →
      (minimal = true → gs.length = 1 ∨ gs.headD 0 ≠ 0) →
      Vlq.read W minimal (Vlq.encodeGroups gs ++ rest) =
        if Vlq.groupsVal gs < 2 ^ W then .ok (Vlq.groupsVal gs, rest)
        else .error .overflow) := by
  have h128 : (128 : Nat) ≤ 2 ^ W :=
    le_trans (by norm_num : (128 : Nat) ≤ 2 ^ 7) (Nat.pow_le_pow_right (by omega) hW)
  constructor
  · intro rest
    simp [Vlq.read]
  · intro gs rest minimal hne hlt hmin
    match gs, hne with
    | [g], _ =>
      have hg : g < 128 := hlt g (by simp)
      have hgne : ¬ (g = 0x80 ∧ minimal = true) := by
        rintro ⟨rfl, _⟩; omega
      simp only [Vlq.encodeGroups, List.cons_append, List.nil_append, Vlq.read,
        if_neg hgne]
      rw [Vlq.readLoop_done (Vlq.and128_of_lt hg), Vlq.and127_of_lt hg]
      have hgv : Vlq.groupsVal [g] = g := by
        simp [Vlq.groupsVal, Vlq.groupsValFrom]
      rw [hgv, if_pos (by omega)]
    | g :: g2 :: gs2, _ =>
      have hg : g < 128 := hlt g (by simp)
      have hb : g ||| 0x80 ≠ 0x80 ∨ minimal = false := by
        cases minimal with
        | false => right; rfl
        | true =>
          left
          rcases hmin rfl with h1 | h1
          · simp at h1
          · simp only [List.headD_cons] at h1
            intro hcontra
            have := Vlq.or128_and127 hg
            rw [hcontra] at this
            exact h1 (by simpa using this.symm)
      have hbne : ¬ (g ||| 0x80 = 0x80 ∧ minimal = true) := by
        rintro ⟨h1, h2⟩
        rcases hb with h3 | h3
        · exact h3 h1
        · rw [h3] at h2; cases h2
      simp only [Vlq.encodeGroups, List.cons_append, Vlq.read, if_neg hbne]
      rw [Vlq.or128_and127 hg]
      have hspec := Vlq.readLoop_spec W (g2 :: gs2) rest (g ||| 0x80) g
        (by simp) (fun x hx => hlt x (List.mem_cons_of_mem g hx))
        (Vlq.or128_and128 hg) (by omega)
      rw [hspec]
      have hgv : Vlq.groupsVal (g :: g2 :: gs2) = Vlq.groupsValFrom g (g2 :: gs2) := by
        simp [Vlq.groupsVal, Vlq.groupsValFrom]
      rw [hgv]

/-- Witness for C7 at `W = 8`: a leading `0x80` is rejected, the two-group
VLQ `81 05` decodes to `133 < 2^8`, and the three-group VLQ `82 85 01`
(value `33409 ≥ 2^8`) overflows. -/
theorem claim_C7_witness :
    Vlq.read 8 true (0x80 :: [0x01]) = .error .notMinimal ∧
    Vlq.read 8 true (Vlq.encodeGroups [1, 5] ++ [9]) = .ok (133, [9]) ∧
    Vlq.read 8 false (Vlq.encodeGroups [2, 5, 1] ++ []) = .error .overflow := by
  refine ⟨(claim_C7 8 (by norm_num)).1 [0x01], ?_, ?_⟩
  · rw [(claim_C7 8 (by norm_num)).2 [1, 5] [9] true (by decide) (by decide) (by decide)]
    decide
  · rw [(claim_C7 8 (by norm_num)).2 [2, 5, 1] [] false (by decide) (by decide)
      (by decide)]
    decide

/-- Counterexample for C7 as frozen: decoding `05` into an 8-bit destination
succeeds with value `5`, although `5` has `3` meaningful bits and
`⌈8/7⌉ = 2 < 3`; the accumulator bound in the code is `W` bits, not `⌈W/7⌉`
bits. -/
theorem claim_C7_counterexample :
    Vlq.read 8 true [0x05] = .ok (5, []) ∧
    bitLen 5 = 3 ∧ (8 + 6) / 7 = 2 ∧ ¬ (3 : Nat) ≤ 2 := by decide

/-- Claim C2 (code bug).  The INTEGER content `00 FF FF` is *not* in the
claimed non-minimal set (its first two octets are neither `00` with the next
top bit clear nor `FF` with the next top bit set), and its two's-complement
value `65535` fits an `int64`, so by the claim it must decode successfully;
`intCodec.BerDecode` into an `int64` rejects it as "not minimally encoded".
Cause: in Go, `read == 2 && val&0xff80 == 0 || val&0xff80 == 0xff80` parses
as `(read == 2 && val&0xff80 == 0) || (val&0xff80 == 0xff80)`, so the `0xff80`
test is applied at *every* accumulator state, and after three bytes the
accumulator `0x00ffff` matches it. -/
theorem claim_C2 :
    Ber.intCodecBerDecode true 8 Ber.intTag [0x00, 0xFF, 0xFF] =
      .error (.synB Ber.intTag .notMinimallyEncoded) ∧
    Ber.claimNonMinimal [0x00, 0xFF, 0xFF] = false ∧
    Ber.tcValue [0x00, 0xFF, 0xFF] = 65535 ∧
    ((0 : Int) ≤ 65535 ∧ (65535 : Int) ≤ maxInt) := by
  refine ⟨by decide, by decide, by decide, by decide, ?_⟩
  norm_num [maxInt]

/-- Claim C3 (code bug).  On the stream `04 82 00 | transient error | 01 15`
the first `ReadHeader` fails with the wrapped I/O error and leaves the stack,
the state and `InputOffset` unchanged — that part of the claim holds.  But
the retried call does *not* return the header of an error-free run: it
returns length `277` where the error-free run returns length `1`.  Cause:
`decodeHeader` removes leading zero length octets from the replay buffer
(`d.peekAt--; d.peekLen--`), so the replay of `04 82 00` after the transient
error is desynchronized and replays the stale third scratch byte `0x01`
as an extra length octet. -/
theorem claim_C3 :
    ((Tlv.Decoder.mk0 [.byte 0x04, .byte 0x82, .byte 0x00, .terr, .byte 0x01,
      .byte 0x15]).ReadHeader.2 = .error .ioErr) ∧
    ((Tlv.Decoder.mk0 [.byte 0x04, .byte 0x82, .byte 0x00, .terr, .byte 0x01,
      .byte 0x15]).ReadHeader.1.st =
      (Tlv.Decoder.mk0 [.byte 0x04, .byte 0x82, .byte 0x00, .terr, .byte 0x01,
        .byte 0x15]).st) ∧
    ((Tlv.Decoder.mk0 [.byte 0x04, .byte 0x82, .byte 0x00, .terr, .byte 0x01,
      .byte 0x15]).ReadHeader.1.InputOffset =
      (Tlv.Decoder.mk0 [.byte 0x04, .byte 0x82, .byte 0x00, .terr, .byte 0x01,
        .byte 0x15]).InputOffset) ∧
    ((Tlv.Decoder.mk0 [.byte 0x04, .byte 0x82, .byte 0x00, .terr, .byte 0x01,
      .byte 0x15]).ReadHeader.1.ReadHeader.2 = .ok (⟨4, false, 277⟩, some 277)) ∧
    ((Tlv.Decoder.mk0 [.byte 0x04, .byte 0x82, .byte 0x00, .byte 0x01,
      .byte 0x15]).ReadHeader.2 = .ok (⟨4, false, 1⟩, some 1)) ∧
    ((⟨4, false, 277⟩ : Tlv.Header) ≠ ⟨4, false, 1⟩) := by decide

/-- Claim C5 (code bug).  `PeekHeader` does leave the stack depth unchanged,
but it is not idempotent: on the stream `04 82 00 01 15` (long-form length
with a leading zero octet) the first peek returns length `1` and the second
peek — and the subsequent `ReadHeader` — return length `277`.  Cause: the
same replay-buffer desynchronization as in C3; the first peek drops the zero
length octet from the replay buffer, so the second pass reads the stale
scratch byte `0x01` as part of the length. -/
theorem claim_C5 :
    ((Tlv.Decoder.mk0 [.byte 0x04, .byte 0x82, .byte 0x00, .byte 0x01,
      .byte 0x15]).PeekHeader.1.StackDepth =
      (Tlv.Decoder.mk0 [.byte 0x04, .byte 0x82, .byte 0x00, .byte 0x01,
        .byte 0x15]).StackDepth) ∧
    ((Tlv.Decoder.mk0 [.byte 0x04, .byte 0x82, .byte 0x00, .byte 0x01,
      .byte 0x15]).PeekHeader.2 = .ok ⟨4, false, 1⟩) ∧
    ((Tlv.Decoder.mk0 [.byte 0x04, .byte 0x82, .byte 0x00, .byte 0x01,
      .byte 0x15]).PeekHeader.1.PeekHeader.2 = .ok ⟨4, false, 277⟩) ∧
    ((Tlv.Decoder.mk0 [.byte 0x04, .byte 0x82, .byte 0x00, .byte 0x01,
      .byte 0x15]).PeekHeader.1.ReadHeader.2 = .ok (⟨4, false, 277⟩, some 277)) ∧
    ((⟨4, false, 1⟩ : Tlv.Header) ≠ ⟨4, false, 277⟩) := by decide

/-- Claim C6 (code bug).  The OID `0.40` violates the claimed constraint
"second arc < 40 when the first arc < 2", so by the claim `BerEncode` must
reject it; the code accepts it (the Go check is `c.val[1] > 40`, i.e. `≥ 41`,
instead of `≥ 40`) and encodes it as the single octet `40 = 40·1 + 0`, which
decodes back as the *different* OID `1.0` — so the claimed validation is
not enforced and round-tripping is broken on this input. -/
theorem claim_C6 :
    Ber.oidBerEncode [0, 40] = .ok [40] ∧
    (2 ≤ ([0, 40] : List Nat).length ∧ ([0, 40] : List Nat).getD 0 0 ≤ 2 ∧
      ([0, 40] : List Nat).getD 0 0 < 2 ∧ ¬ (([0, 40] : List Nat).getD 1 0 < 40)) ∧
    Ber.oidContentDecode [40] = .ok [1, 0] ∧
    ([1, 0] : List Nat) ≠ [0, 40] := by decide

/-- Claim C9 (code bug).  A constructed OCTET STRING (tag `(0, 19)` here)
whose children all carry the same tag `(0, 19)` — one nested constructed
child holding two primitive leaves — must be flattened without error by the
claim.  The first `next` call returns the first leaf, but the second call
fails with the "non-matching encoding" error carrying the *zero* tag.
Cause: when `next` resumes the nested reader (`r.curr != nil`), after the
inner read succeeds it re-checks the loop-local header `h`, which still
holds its zero value from the start of the call, against the outer tag. -/
theorem claim_C9 :
    ((Ber.srNext 20 (.mk ⟨0, 19⟩
        ⟨.cons [(⟨0, 19⟩, .cons [(⟨0, 19⟩, .prim [0x41]), (⟨0, 19⟩, .prim [0x42])])], 0⟩
        none none)).2 = .ok ⟨.prim [0x41], 0⟩) ∧
    ((Ber.srNext 20 (Ber.srNext 20 (.mk ⟨0, 19⟩
        ⟨.cons [(⟨0, 19⟩, .cons [(⟨0, 19⟩, .prim [0x41]), (⟨0, 19⟩, .prim [0x42])])], 0⟩
        none none)).1).2 = .error (.nonMatching ⟨0, 0⟩)) ∧
    (Ber.allTags ⟨0, 19⟩
      (.cons [(⟨0, 19⟩, .cons [(⟨0, 19⟩, .prim [0x41]), (⟨0, 19⟩, .prim [0x42])])])
      = true) ∧
    ((⟨0, 0⟩ : Ber.BTag) ≠ ⟨0, 19⟩) := by
  exact ⟨rfl, rfl, rfl, by decide⟩

/-- Claim C1 (confirmed).  End-of-contents handling of the TLV codec pair:
(1) closing a definite-length constructed enclosure with `WriteHeader`
emits nothing; (2) closing an indefinite-length enclosure emits exactly the
two end-of-contents octets `00 00`; (3) `ReadHeader` returns the synthetic
end-of-contents header (tag `0`, primitive, length `0`, no value reader) when
a definite-length constructed enclosure has `0` bytes remaining, without
consuming input; (4) `ReadHeader` returns the same header inside an
indefinite-length enclosure when the explicit `00 00` marker is next on the
wire. -/
theorem claim_C1 :
    (∀ e : Tlv.Encoder, e.valActive = none → ¬ e.st.root →
      e.st.curr.header.constructed = true →
      e.st.curr.header.length ≠ Tlv.LengthIndefinite →
      e.st.curr.Remaining = 0 →
      (e.WriteHeader ⟨0, false, 0⟩).1.output = e.output ∧
      (e.WriteHeader ⟨0, false, 0⟩).2 = .ok none) ∧
    (∀ e : Tlv.Encoder, e.valActive = none → ¬ e.st.root →
      e.st.curr.header.constructed = true →
      e.st.curr.header.length = Tlv.LengthIndefinite →
      e.peekLen = 0 → e.peekAt = 0 → 2 ≤ e.peekBuf.length →
      (e.st.curr.Remaining = Tlv.LengthIndefinite ∨ 2 ≤ e.st.curr.Remaining) →
      (e.WriteHeader ⟨0, false, 0⟩).1.output = e.output ++ [0, 0] ∧
      (e.WriteHeader ⟨0, false, 0⟩).2 = .ok none) ∧
    (∀ d : Tlv.Decoder, d.valActive = none → ¬ d.st.root →
      d.st.curr.header.length ≠ Tlv.LengthIndefinite →
      d.st.curr.Remaining = 0 →
      d.ReadHeader.2 = .ok (⟨0, false, 0⟩, none)) ∧
    (∀ (d : Tlv.Decoder) (rest : List Tlv.BrItem), d.valActive = none →
      ¬ d.st.root → d.st.curr.header.length = Tlv.LengthIndefinite →
      d.peekLen = 0 → d.peekBytes = 0 →
      (d.st.curr.Remaining = Tlv.LengthIndefinite ∨ 2 ≤ d.st.curr.Remaining) →
      d.input = .byte 0 :: .byte 0 :: rest →
      d.ReadHeader.2 = .ok (⟨0, false, 0⟩, none)) := by
  refine ⟨?_, ?_, ?_, ?_⟩
  · intro e hva hroot hcon hlen hrem
    have hva2 : e.valActive.isSome = false := by rw [hva]; rfl
    unfold Tlv.Encoder.WriteHeader Tlv.Encoder.writeHeaderE
    simp [hva2, hroot, hcon, hlen, hrem]
  · intro e hva hroot hcon hlen hpl hpa hbuf hrem
    have hva2 : e.valActive.isSome = false := by rw [hva]; rfl
    have hLI : Tlv.LengthIndefinite = -1 := rfl
    have hR0 : ¬ ((0 : Int) = e.st.curr.Remaining) := by
      rcases hrem with h | h
      · rw [hLI] at h; omega
      · omega
    have hR1 : ¬ ((1 : Int) = e.st.curr.Remaining) := by
      rcases hrem with h | h
      · rw [hLI] at h; omega
      · omega
    unfold Tlv.Encoder.WriteHeader Tlv.Encoder.writeHeaderE Tlv.Encoder.encodeHeaderE
      Tlv.Encoder.writeByteE Tlv.Encoder.flushE
    simp [hva2, hroot, hcon, hlen, hpl, hpa, hR0, hR1, Tlv.LengthIndefinite,
      Tlv.take2_set01 hbuf]
  · intro d hva hroot hlen hrem
    have hva2 : d.valActive.isSome = false := by rw [hva]; rfl
    unfold Tlv.Decoder.ReadHeader Tlv.Decoder.PeekHeader Tlv.Decoder.readHeaderAux
    simp [hva2, hlen, hrem]
  · intro d rest hva hroot hlen hpl hpb hrem hinput
    have hva2 : d.valActive.isSome = false := by rw [hva]; rfl
    have hLI : Tlv.LengthIndefinite = -1 := rfl
    have hR0 : ¬ (d.st.curr.Remaining = (0 : Int)) := by
      rcases hrem with h | h
      · rw [hLI] at h; omega
      · omega
    have hR1 : ¬ (d.st.curr.Remaining = (1 : Int)) := by
      rcases hrem with h | h
      · rw [hLI] at h; omega
      · omega
    unfold Tlv.Decoder.ReadHeader Tlv.Decoder.PeekHeader Tlv.Decoder.readHeaderAux
      Tlv.Decoder.decodeHeader Tlv.Decoder.readLength Tlv.Decoder.readByte
    simp [hva2, hroot, hlen, hpl, hpb, hrem, hinput, hR0, hR1]

/-- Witness for C1: after `30 00` (definite empty SEQUENCE) the encoder
closes with no output and the decoder reports the synthetic end-of-contents;
after `30 80` (indefinite SEQUENCE) the encoder closes by emitting `00 00`
and the decoder consumes the explicit `00 00`. -/
theorem claim_C1_witness :
    (((Tlv.Encoder.mk0.WriteHeader ⟨16, true, 0⟩).1.WriteHeader ⟨0, false, 0⟩).1.output
       = (Tlv.Encoder.mk0.WriteHeader ⟨16, true, 0⟩).1.output ∧
     ((Tlv.Encoder.mk0.WriteHeader ⟨16, true, 0⟩).1.WriteHeader ⟨0, false, 0⟩).2
       = .ok none) ∧
    (((Tlv.Encoder.mk0.WriteHeader ⟨16, true, -1⟩).1.WriteHeader ⟨0, false, 0⟩).1.output
       = (Tlv.Encoder.mk0.WriteHeader ⟨16, true, -1⟩).1.output ++ [0, 0] ∧
     ((Tlv.Encoder.mk0.WriteHeader ⟨16, true, -1⟩).1.WriteHeader ⟨0, false, 0⟩).2
       = .ok none) ∧
    ((Tlv.Decoder.mk0 [.byte 0x30, .byte 0x00]).ReadHeader.1.ReadHeader.2
       = .ok (⟨0, false, 0⟩, none)) ∧
    ((Tlv.Decoder.mk0 [.byte 0x30, .byte 0x80, .byte 0x00,
        .byte 0x00]).ReadHeader.1.ReadHeader.2
       = .ok (⟨0, false, 0⟩, none)) := by
  refine ⟨claim_C1.1 _ (by decide) (by decide) (by decide) (by decide) (by decide),
    claim_C1.2.1 _ (by decide) (by decide) (by decide) (by decide) (by decide)
      (by decide) (by decide) (by decide),
    claim_C1.2.2.1 _ (by decide) (by decide) (by decide) (by decide),
    claim_C1.2.2.2 _ [] (by decide) (by decide) (by decide) (by decide) (by decide)
      (by decide) (by decide)⟩

/-- Claim C8 (corrected).  When a previous `WriteHeader` left unflushed bytes
in the scratch buffer (`peekAt < peekLen`): calling `WriteHeader` again with
the same header re-flushes exactly the remaining scratch bytes
`peekBuf[peekAt:peekLen]` and succeeds, while calling it with a *different*
header is rejected with the unwritten-data error and writes nothing —
provided the different header itself passes the up-front validation.  (The
frozen claim says *any* different header is rejected with that error;
`claim_C8_counterexample` refutes this with the end-of-contents header, which
is rejected earlier with a different error.) -/
theorem claim_C8 :
    (∀ e : Tlv.Encoder, e.valActive = none → 0 ≤ e.peekAt →
      e.peekAt < e.peekLen → e.peekHeader.tag ≠ 0 →
      ¬ (e.peekHeader.constructed = false ∧
         e.peekHeader.length = Tlv.LengthIndefinite) →
      ¬ (e.peekHeader.length ≠ Tlv.LengthIndefinite ∧
         toUint64 (Tlv.HeaderSize e.peekHeader + e.peekHeader.length) >
           toUint64 e.st.curr.Remaining) →
      exceptOk (e.WriteHeader e.peekHeader).2 = true ∧
      (e.WriteHeader e.peekHeader).1.output
        = e.output ++ ((e.peekBuf.take e.peekLen.toNat).drop e.peekAt.toNat)) ∧
    (∀ (e : Tlv.Encoder) (h : Tlv.Header), e.valActive = none →
      0 < e.peekLen → h ≠ e.peekHeader → h.tag ≠ 0 →
      ¬ (h.constructed = false ∧ h.length = Tlv.LengthIndefinite) →
      ¬ (h.length ≠ Tlv.LengthIndefinite ∧
         toUint64 (Tlv.HeaderSize h + h.length) > toUint64 e.st.curr.Remaining) →
      (e.WriteHeader h).2 = .error (.syn e.st.offset e.st.curr.header .unwrittenData) ∧
      (e.WriteHeader h).1.output = e.output) := by
  constructor
  · intro e hva hpa hlt htag hprim hexc
    have hva2 : e.valActive.isSome = false := by rw [hva]; rfl
    have hpl : (0 : Int) < e.peekLen := lt_of_le_of_lt hpa hlt
    have hne2 : e.peekAt ≠ e.peekLen := ne_of_lt hlt
    by_cases hc : e.peekHeader.constructed = true
    · unfold Tlv.Encoder.WriteHeader Tlv.Encoder.writeHeaderE Tlv.Encoder.encodeHeaderE
        Tlv.Encoder.flushE
      simp [hva2, htag, hexc, hpl, hne2, hc, exceptOk]
    · have hc2 : e.peekHeader.constructed = false := by
        cases h2 : e.peekHeader.constructed
        · rfl
        · exact absurd h2 hc
      have hlen : e.peekHeader.length ≠ Tlv.LengthIndefinite := fun hl => hprim ⟨hc2, hl⟩
      have hexc2 : ¬ (toUint64 e.st.curr.Remaining <
          toUint64 (Tlv.HeaderSize e.peekHeader + e.peekHeader.length)) :=
        fun hx => hexc ⟨hlen, hx⟩
      unfold Tlv.Encoder.WriteHeader Tlv.Encoder.writeHeaderE Tlv.Encoder.encodeHeaderE
        Tlv.Encoder.flushE
      simp [hva2, htag, hexc2, hpl, hne2, hc2, hlen, exceptOk]
  · intro e h hva hpl hne htag hprim hexc
    have hva2 : e.valActive.isSome = false := by rw [hva]; rfl
    unfold Tlv.Encoder.WriteHeader Tlv.Encoder.writeHeaderE Tlv.Encoder.encodeHeaderE
    simp [hva2, htag, hprim, hexc, hpl, hne]

/-- Witness for C8: an encoder stalled after flushing only the first of the
two header bytes `04 01` (OCTET STRING, length 1).  A retry with the same
header flushes the remaining byte `01`; a retry with the different header
`05 01` fails with the unwritten-data error and flushes nothing. -/
theorem claim_C8_witness :
    exceptOk (Tlv.retryEncoder.WriteHeader ⟨4, false, 1⟩).2 = true ∧
    (Tlv.retryEncoder.WriteHeader ⟨4, false, 1⟩).1.output = [0x04, 0x01] ∧
    (Tlv.retryEncoder.WriteHeader ⟨5, false, 1⟩).2
      = .error (.syn 0 ⟨0, true, -1⟩ .unwrittenData) ∧
    (Tlv.retryEncoder.WriteHeader ⟨5, false, 1⟩).1.output = [0x04] := by
  have h1 := claim_C8.1 Tlv.retryEncoder
    (by decide) (by decide) (by decide) (by decide) (by decide) (by decide)
  have h2 := claim_C8.2 Tlv.retryEncoder ⟨5, false, 1⟩
    (by decide) (by decide) (by decide) (by decide) (by decide) (by decide)
  exact ⟨h1.1, h1.2.trans (by decide), h2.1, h2.2.trans (by decide)⟩

/-- Counterexample for C8 as frozen: with scratch bytes remaining, the
end-of-contents header `⟨0, false, 0⟩` *is* a different header value than the
retained `⟨4, false, 1⟩`, yet the call is rejected with the unexpected
end-of-contents error, not the unwritten-data error (the EOC validation runs
before the scratch-buffer check). -/
theorem claim_C8_counterexample :
    (Tlv.retryEncoder.WriteHeader ⟨0, false, 0⟩).2
      = .error (.syn 0 ⟨0, true, -1⟩ .unexpectedEOC) ∧
    ((⟨0, false, 0⟩ : Tlv.Header) ≠ Tlv.retryEncoder.peekHeader) ∧
    Tlv.retryEncoder.peekAt < Tlv.retryEncoder.peekLen ∧
    (Tlv.SynMsg.unexpectedEOC ≠ Tlv.SynMsg.unwrittenData) := by decide

/-- Claim C4 (corrected).  Inside a parent enclosure with definite remaining
length `R`, a child whose header (of `S` bytes) *decodes successfully* and
declares a definite length `L` with `S + L > R` makes `PeekHeader` (and hence
`ReadHeader`) fail with the SyntaxError whose inner message is "data value
exceeds parent", carried at the current offset with the enclosing header;
in particular `30 03 02 02 15 15` fails exactly so at offset `2`.  (The
frozen claim asserts this error for *every* `S + L > R`; it is refuted by
`claim_C4_counterexample`, where the header bytes themselves already overrun
the parent and the decoder reports "truncated data value" instead.) -/
theorem claim_C4 :
    (∀ (d d2 : Tlv.Decoder) (h : Tlv.Header),
      d.valActive = none →
      d.st.curr.header.length ≠ Tlv.LengthIndefinite →
      0 < d.st.curr.Remaining → d.st.curr.Remaining ≤ maxInt →
      ({ d with peekAt := 0 } : Tlv.Decoder).decodeHeader = (d2, .ok h) →
      h.tag ≠ 0 → h.length ≠ Tlv.LengthIndefinite →
      0 ≤ h.length → 0 ≤ d2.peekBytes →
      d2.peekBytes + h.length < 2 ^ 63 →
      d.st.curr.Remaining < d2.peekBytes + h.length →
      d.PeekHeader = (d2, .error (.syn d.st.offset d.st.curr.header .exceedsParent))) ∧
    ((Tlv.Decoder.mk0 [.byte 0x30, .byte 0x03, .byte 0x02, .byte 0x02, .byte 0x15,
      .byte 0x15]).ReadHeader.1.ReadHeader.2
      = .error (.syn 2 ⟨16, true, 3⟩ .exceedsParent)) := by
  constructor
  · intro d d2 h hva hlen hr0 hr1 hdec htag hlenh hl0 hpb0 hsum hexc
    have hmi : maxInt = 2 ^ 63 - 1 := rfl
    have hst : d2.st = d.st := by
      have h0 := Tlv.decodeHeader_st ({ d with peekAt := 0 } : Tlv.Decoder)
      rw [hdec] at h0
      exact h0
    have hva2 : d.valActive.isSome = false := by rw [hva]; rfl
    have hu1 : toUint64 (d2.peekBytes + h.length) = d2.peekBytes + h.length :=
      toUint64_eq_self (by omega) (by omega)
    have hu2 : toUint64 d.st.curr.Remaining = d.st.curr.Remaining :=
      toUint64_eq_self (by omega) (by omega)
    have hcond : toUint64 d.st.curr.Remaining < toUint64 (d2.peekBytes + h.length) := by
      rw [hu1, hu2]; omega
    have hne : h ≠ (⟨0, false, 0⟩ : Tlv.Header) := fun he => htag (by rw [he])
    have hR0 : d.st.curr.Remaining ≠ 0 := by omega
    unfold Tlv.Decoder.PeekHeader Tlv.Decoder.readHeaderAux
    simp [hva2, hdec, hne, htag, hlenh, hR0, hcond, hst]
  · decide

/-- Witness for C4: after reading the outer header of `30 03 02 02 15 15`
the parent has `R = 3` remaining; the child header `02 02` decodes to
`⟨2, false, 2⟩` with `S = 2` header bytes, `2 + 2 > 3`, and `PeekHeader`
reports "data value exceeds parent" at offset `2` inside `⟨16, true, 3⟩`. -/
theorem claim_C4_witness :
    (Tlv.Decoder.mk0 [.byte 0x30, .byte 0x03, .byte 0x02, .byte 0x02, .byte 0x15,
      .byte 0x15]).ReadHeader.1.PeekHeader
    = (({ (Tlv.Decoder.mk0 [.byte 0x30, .byte 0x03, .byte 0x02, .byte 0x02, .byte 0x15,
        .byte 0x15]).ReadHeader.1 with peekAt := 0 } : Tlv.Decoder).decodeHeader.1,
      .error (.syn 2 ⟨16, true, 3⟩ .exceedsParent)) := by
  have hx := claim_C4.1
    (Tlv.Decoder.mk0 [.byte 0x30, .byte 0x03, .byte 0x02, .byte 0x02, .byte 0x15,
      .byte 0x15]).ReadHeader.1
    ({ (Tlv.Decoder.mk0 [.byte 0x30, .byte 0x03, .byte 0x02, .byte 0x02, .byte 0x15,
      .byte 0x15]).ReadHeader.1 with peekAt := 0 } : Tlv.Decoder).decodeHeader.1
    ⟨2, false, 2⟩ (by decide) (by decide) (by decide) (by decide) (by decide)
    (by decide) (by decide) (by decide) (by decide) (by decide) (by decide)
  exact hx

/-- Counterexample for C4 as frozen: in `30 01 02 02 15 15` the parent holds
only `R = 1` byte, the child declares `S = 2` header bytes and `L = 2`, so
`S + L > R` and the claim demands "data value exceeds parent"; the decoder
actually fails with "truncated data value", because the truncation guard in
`readByte` fires while the child header is still being read, before the
exceeds-parent validation is reached. -/
theorem claim_C4_counterexample :
    ((Tlv.Decoder.mk0 [.byte 0x30, .byte 0x01, .byte 0x02, .byte 0x02, .byte 0x15,
      .byte 0x15]).ReadHeader.1.ReadHeader.2
      = .error (.syn 2 ⟨16, true, 1⟩ .truncated)) ∧
    ((2 : Int) + 2 > 1) ∧
    (Tlv.SynMsg.truncated ≠ Tlv.SynMsg.exceedsParent) := by decide

end Asn1
